import Mathlib

/-
Verification of the two-pass Reddit cohort-tracking workflow of the
ContentModeration repository (src/reddit/collect_data.py and
src/reddit/collect_data_2.py).

The Python code is shallowly embedded: the global `user_info_cache` dict and
the observable effects (external profile fetches, pacing sleeps, batch bulk
calls, error logs) are threaded through explicit state records that carry an
association-list cache and an ordered event trace.  Timestamps are modelled
as integers (epoch seconds); `datetime.now` becomes an explicit `now`
parameter.  Exceptions raised by the external collaborators (praw) are
modelled by outcome datatypes: a fallible author fetch becomes a
`FetchOutcome`, a fallible bulk-info call becomes a `BatchResult`, and a
per-post record-construction failure is modelled by the post's attribute
block being absent.
-/

namespace ContentModeration

/-- Association list with Python-dict update semantics: `lookupA` returns the
value stored at the first matching key. -/
def lookupA {α : Type} : List (String × α) → String → Option α
  | [], _ => none
  | (k', v) :: t, k => if k' = k then some v else lookupA t k

/-- Association list insertion with Python-dict update semantics:
`d[k] = v` replaces the value at an existing key in place and otherwise
appends the new binding. -/
def insertA {α : Type} : List (String × α) → String → α → List (String × α)
  | [], k, v => [(k, v)]
  | (k', v') :: t, k, v => if k' = k then (k', v) :: t else (k', v') :: insertA t k v

theorem lookupA_insertA_self {α : Type} (l : List (String × α)) (k : String) (v : α) :
    lookupA (insertA l k v) k = some v := by
  induction l with
  | nil => simp [insertA, lookupA]
  | cons p t ih =>
    obtain ⟨k', v'⟩ := p
    by_cases h : k' = k
    · simp [insertA, lookupA, h]
    · simp [insertA, lookupA, h, ih]

theorem lookupA_insertA_ne {α : Type} (l : List (String × α)) (k k' : String) (v : α)
    (h : k' ≠ k) : lookupA (insertA l k v) k' = lookupA l k' := by
  induction l with
  | nil =>
    simp only [insertA, lookupA]
    rw [if_neg (Ne.symm h)]
  | cons p t ih =>
    obtain ⟨k0, v0⟩ := p
    by_cases h0 : k0 = k
    · subst h0
      simp only [insertA, if_pos rfl, lookupA]
      rw [if_neg (Ne.symm h), if_neg (Ne.symm h)]
    · simp only [insertA, if_neg h0, lookupA]
      by_cases h1 : k0 = k'
      · simp [h1]
      · simp [h1, ih]

theorem lookupA_insertA_isSome {α : Type} (l : List (String × α)) (k k' : String) (v : α)
    (h : (lookupA l k').isSome = true) :
    (lookupA (insertA l k v) k').isSome = true := by
  by_cases hk : k' = k
  · subst hk; simp [lookupA_insertA_self]
  · rw [lookupA_insertA_ne l k k' v hk]; exact h

theorem lookupA_mem {α : Type} (l : List (String × α)) (k : String) (v : α)
    (h : lookupA l k = some v) : (k, v) ∈ l := by
  induction l with
  | nil => simp [lookupA] at h
  | cons p t ih =>
    obtain ⟨k', v'⟩ := p
    by_cases hk : k' = k
    · subst hk
      simp only [lookupA, if_true, eq_self_iff_true, Option.some.injEq] at h
      subst h
      exact List.mem_cons_self _ _
    · simp only [lookupA, if_neg hk] at h
      exact List.mem_cons_of_mem _ (ih h)

theorem mem_insertA {α : Type} (l : List (String × α)) (k : String) (v : α) (p : String × α)
    (h : p ∈ insertA l k v) : p ∈ l ∨ p.2 = v := by
  induction l with
  | nil =>
    simp only [insertA, List.mem_singleton] at h
    subst h; right; rfl
  | cons q t ih =>
    obtain ⟨k', v'⟩ := q
    by_cases hk : k' = k
    · simp only [insertA, if_pos hk, List.mem_cons] at h
      rcases h with h | h
      · subst h; right; rfl
      · left; exact List.mem_cons_of_mem _ h
    · simp only [insertA, if_neg hk, List.mem_cons] at h
      rcases h with h | h
      · left; subst h; exact List.mem_cons_self _ _
      · rcases ih h with h1 | h1
        · left; exact List.mem_cons_of_mem _ h1
        · right; exact h1

theorem lookupA_eq_none {α : Type} (l : List (String × α)) (k : String)
    (h : ∀ q ∈ l, q.1 ≠ k) : lookupA l k = none := by
  induction l with
  | nil => rfl
  | cons q t ih =>
    obtain ⟨k', v'⟩ := q
    have hk : k' ≠ k := h (k', v') (List.mem_cons_self _ _)
    simp only [lookupA, if_neg hk]
    exact ih fun q hq => h q (List.mem_cons_of_mem _ hq)

/- ### Pass 1 data model (src/reddit/collect_data.py) -/

/-- Observable effects of the Pass 1 author lookup: an external profile
fetch for a username (the lazy praw attribute load at line 56 of
collect_data.py) and the `time.sleep(0.6)` pacing delay at line 71. -/
inductive UEvent where
  | fetch (u : String)
  | sleep
deriving DecidableEq, Repr

/-- The Author Snapshot dictionary returned by `collect_user_info`. -/
structure Snapshot where
  username : String
  account_age_days : Option Int
  link_karma : Option Int
  comment_karma : Option Int
  total_karma : Option Int
  is_verified : Option Bool
  author_unavailable : Bool
deriving DecidableEq, Repr

/-- Outcome of the external author-profile fetch.  `ok` carries the fetched
attributes (`created` is `none` when the `created_utc` attribute is missing
or `None`, the case the source turns into an `AttributeError`); `notFound`
and `forbidden` model the praw exceptions of the same names; `otherError`
models any other exception, caught by the generic `except` clause. -/
inductive FetchOutcome where
  | ok (created : Option Int) (lk : Int) (ck : Int) (iv : Option Bool)
  | notFound
  | forbidden
  | otherError
deriving DecidableEq, Repr

/-- A praw author reference: `str(author)` is total and yields `name`;
touching any profile attribute performs the lazy fetch with outcome
`fetch`. -/
structure AuthorRef where
  name : String
  fetch : FetchOutcome
deriving DecidableEq, Repr

/-- The mutable state of one collection run: the global `user_info_cache`
dict plus the ordered trace of observable effects. -/
structure UIState where
  cache : List (String × Snapshot)
  events : List UEvent
deriving DecidableEq, Repr

/-- The snapshot returned for a null author and for the literal username
`[deleted]` (lines 27-35 and 43-51 of collect_data.py). -/
def deletedSnapshot : Snapshot :=
  { username := "[deleted]", account_age_days := none, link_karma := none,
    comment_karma := none, total_karma := none, is_verified := none,
    author_unavailable := true }

/-- The snapshot cached by the `except (NotFound, Forbidden, AttributeError)`
clause (lines 76-87): the username is kept when truthy, else `[error]`. -/
def unavailSnapshot (u : String) : Snapshot :=
  { username := if u = "" then "[error]" else u, account_age_days := none,
    link_karma := none, comment_karma := none, total_karma := none,
    is_verified := none, author_unavailable := true }

/-- The snapshot cached by the generic `except Exception` clause
(lines 88-99): the username field is always the literal `[error]`. -/
def errorSnapshot : Snapshot :=
  { username := "[error]", account_age_days := none, link_karma := none,
    comment_karma := none, total_karma := none, is_verified := none,
    author_unavailable := true }

/-- The fresh-fetch path of `collect_user_info` (lines 56-99 of
collect_data.py), reached after a cache miss: records the external fetch,
then either builds a live snapshot (sleeping 0.6 afterwards, line 71) or
caches a failure snapshot.  Every branch stores its snapshot in the cache
under the real username key.  `(d1 - d2).days` on datetimes floors, hence
`Int.fdiv` by 86400. -/
def fetchAuthor (a : AuthorRef) (now : Int) (st : UIState) : Snapshot × UIState :=
  let st1 : UIState := { st with events := st.events ++ [UEvent.fetch a.name] }
  match a.fetch with
  | FetchOutcome.ok created lk ck iv =>
    match created with
    | none =>
      let snap := unavailSnapshot a.name
      (snap, { st1 with cache := insertA st1.cache a.name snap })
    | some c =>
      let snap : Snapshot :=
        { username := a.name,
          account_age_days := some (Int.fdiv (now - c) 86400),
          link_karma := some lk, comment_karma := some ck,
          total_karma := some (lk + ck),
          is_verified := some (iv.getD false),
          author_unavailable := false }
      let st2 : UIState := { st1 with events := st1.events ++ [UEvent.sleep] }
      (snap, { st2 with cache := insertA st2.cache a.name snap })
  | FetchOutcome.notFound =>
    let snap := unavailSnapshot a.name
    (snap, { st1 with cache := insertA st1.cache a.name snap })
  | FetchOutcome.forbidden =>
    let snap := unavailSnapshot a.name
    (snap, { st1 with cache := insertA st1.cache a.name snap })
  | FetchOutcome.otherError =>
    let snap := errorSnapshot
    (snap, { st1 with cache := insertA st1.cache a.name snap })

/-- `collect_user_info` (lines 24-99 of collect_data.py): null author and
`[deleted]` short-circuit, then the cache is consulted, and only a miss
reaches the external fetch. -/
def collect_user_info (author : Option AuthorRef) (now : Int) (st : UIState) :
    Snapshot × UIState :=
  match author with
  | none => (deletedSnapshot, st)
  | some a =>
    if a.name = "[deleted]" then (deletedSnapshot, st)
    else
      match lookupA st.cache a.name with
      | some snap => (snap, st)
      | none => fetchAuthor a now st

/-- One run's sequence of author lookups, threading the cache state. -/
def runLookups (now : Int) (authors : List (Option AuthorRef)) (st : UIState) : UIState :=
  authors.foldl (fun s a => (collect_user_info a now s).2) st

/-- Number of external fetches issued for username `u` in a trace. -/
def countFetch (u : String) (evs : List UEvent) : Nat :=
  evs.countP (fun e => e == UEvent.fetch u)

/-- The attributes of a Pass 1 candidate post.  Scores and the upvote ratio
are opaque payloads here (no arithmetic is performed on them); `selftext`
is `none` when the attribute is absent (`getattr(post, "selftext", None)`). -/
structure PostAttrs where
  fullname : String
  created_utc : Int
  subreddit : String
  title : String
  selftext : Option String
  domain : String
  score : Int
  num_comments : Int
  upvote_ratio : Int
  link_flair_text : Option String
  author : Option AuthorRef
deriving DecidableEq, Repr

/-- A Pass 1 candidate post as yielded by `subreddit.new`.  `attrs = none`
models a post whose record construction raises (any exception inside the
`try` of `collect_post_data`); the failure is modelled as atomic. -/
structure PostRef where
  attrs : Option PostAttrs
deriving DecidableEq, Repr

/-- The flat Post Record emitted by `collect_post_data`
(lines 109-132 of collect_data.py). -/
structure PostRecord where
  post_fullname : String
  created_utc : Int
  captured_at_utc : Int
  post_age_seconds_at_capture : Int
  subreddit : String
  title : String
  selftext : String
  domain : String
  initial_score : Int
  initial_num_comments : Int
  initial_upvote_ratio : Int
  link_flair_text : Option String
  author_username : String
  author_account_age_days : Option Int
  author_total_karma : Option Int
  author_link_karma : Option Int
  author_comment_karma : Option Int
  author_is_verified : Option Bool
  author_unavailable : Bool
deriving DecidableEq, Repr

/-- The record dict literal of `collect_post_data` (lines 109-132 of
collect_data.py), given the post attributes and the resolved Author
Snapshot `ai`.  The age is the datetime difference in seconds;
`body[:500] if body else ''` keeps the first 500 characters of a truthy
body and yields the empty string for `None` or `''`. -/
def mkPostRecord (now : Int) (a : PostAttrs) (ai : Snapshot) : PostRecord :=
  { post_fullname := a.fullname,
        created_utc := a.created_utc,
        captured_at_utc := now,
        post_age_seconds_at_capture := now - a.created_utc,
        subreddit := a.subreddit,
        title := a.title,
        selftext := match a.selftext with
          | none => ""
          | some s => if s = "" then "" else s.take 500,
        domain := a.domain,
        initial_score := a.score,
        initial_num_comments := a.num_comments,
        initial_upvote_ratio := a.upvote_ratio,
        link_flair_text := a.link_flair_text,
        author_username := ai.username,
        author_account_age_days := ai.account_age_days,
        author_total_karma := ai.total_karma,
        author_link_karma := ai.link_karma,
        author_comment_karma := ai.comment_karma,
        author_is_verified := ai.is_verified,
        author_unavailable := ai.author_unavailable }

/-- `collect_post_data` (lines 101-135 of collect_data.py): resolves the
Author Snapshot through the cache, then builds the flat record; `now` is
the capture timestamp (`datetime.now`).  A failing construction returns
`None` (modelled by `attrs = none`). -/
def collect_post_data (now : Int) (p : PostRef) (st : UIState) :
    Option PostRecord × UIState :=
  match p.attrs with
  | none => (none, st)
  | some a =>
    let res := collect_user_info a.author now st
    (some (mkPostRecord now a res.1), res.2)

/-- `collect_initial_cohort` (lines 138-161 of collect_data.py): walks the
posts in source order, keeps each successfully built record (`if post_data:`
— a record dict is always truthy, a failed construction yields `None`) and
appends the record's `post_fullname` to the parallel identifier list.  The
periodic progress print has no effect on the data and is not modelled. -/
def collect_initial_cohort (now : Int) :
    List PostRef → UIState → List PostRecord × List String × UIState
  | [], st => ([], [], st)
  | p :: ps, st =>
    match collect_post_data now p st with
    | (some r, st1) =>
      let rest := collect_initial_cohort now ps st1
      (r :: rest.1, r.post_fullname :: rest.2.1, rest.2.2)
    | (none, st1) => collect_initial_cohort now ps st1

/- ### Pass 2 data model (src/reddit/collect_data_2.py) -/

/-- The current state of a post as returned by the bulk-info call
(`reddit.info`).  `author` is `none` for a null author and otherwise holds
`str(post.author)`; `is_robot_indexable = none` models the attribute being
absent (`hasattr` false). -/
structure Post2 where
  fullname : String
  selftext : Option String
  title : String
  removed_by_category : Option String
  author : Option String
  score : Int
  num_comments : Int
  upvote_ratio : Int
  locked : Bool
  archived : Bool
  is_robot_indexable : Option Bool
deriving DecidableEq, Repr

/-- The Status Record stored per fullname by `get_final_post_status`
(lines 48-62 of collect_data_2.py). -/
structure StatusRec where
  final_score : Int
  final_num_comments : Int
  final_upvote_ratio : Int
  is_removed_official : Bool
  is_removed_content : Bool
  is_removed_inferred : Bool
  removed_by_category : Option String
  is_deleted : Bool
  is_deleted_author : Bool
  is_deleted_content : Bool
  is_locked : Bool
  is_archived : Bool
  rechecked_at_utc : Int
deriving DecidableEq, Repr

/-- Observable effects of Pass 2: a bulk-info call over one batch of
fullnames, the `time.sleep(2)` pacing delay, and the batch-error log line
`Error in batch i-(i+100)`. -/
inductive BEvent where
  | call (batch : List String)
  | sleep
  | errorLog (lo hi : Nat)
deriving DecidableEq, Repr

/-- Outcome of one bulk-info call: the returned posts, or an exception. -/
inductive BatchResult where
  | ok (posts : List Post2)
  | err
deriving DecidableEq, Repr

/-- Pass 2 run state: the accumulated `status_map` dict and the ordered
trace of observable effects. -/
structure P2State where
  statusMap : List (String × StatusRec)
  events : List BEvent
deriving DecidableEq, Repr

/-- The per-post status derivation of `get_final_post_status`
(lines 33-62 of collect_data_2.py); `now` is the re-check timestamp. -/
def mkStatus (p : Post2) (now : Int) : StatusRec :=
  let body := p.selftext
  let removed_official := p.removed_by_category.isSome
  let removed_content := (body == some "[removed]") || (p.title == "[removed]")
  let deleted_content := body == some "[deleted]"
  let deleted_author := p.author.isNone || (p.author == some "[deleted]")
  let deleted := deleted_author || deleted_content
  let removed_inferred :=
    removed_official || removed_content || (p.is_robot_indexable == some false)
  { final_score := p.score,
    final_num_comments := p.num_comments,
    final_upvote_ratio := p.upvote_ratio,
    is_removed_official := removed_official,
    is_removed_content := removed_content,
    is_removed_inferred := removed_inferred,
    removed_by_category := p.removed_by_category,
    is_deleted := deleted,
    is_deleted_author := deleted_author,
    is_deleted_content := deleted_content,
    is_locked := p.locked,
    is_archived := p.archived,
    rechecked_at_utc := now }

/-- The inner loop over one batch's returned posts: each post's status is
stored in the map under its fullname, in response order. -/
def processBatch (posts : List Post2) (now : Int) (m : List (String × StatusRec)) :
    List (String × StatusRec) :=
  posts.foldl (fun acc p => insertA acc p.fullname (mkStatus p now)) m

/-- The body of one `try` block of `get_final_post_status` (lines 32-68 of
collect_data_2.py): issue the bulk call over `batch`, and on success store
every returned status and sleep iff `more` (the source's `i + 100 <
len(post_fullnames)` guard); on an exception log the batch's index range
`i`-`i+100` and fall through — note that the sleep sits inside the `try`,
so a failing batch also skips its delay. -/
def batchStep (oracle : List String → BatchResult) (now : Int) (batch : List String)
    (more : Bool) (i : Nat) (st : P2State) : P2State :=
  let st1 : P2State := { st with events := st.events ++ [BEvent.call batch] }
  match oracle batch with
  | BatchResult.ok posts =>
    let stm : P2State := { st1 with statusMap := processBatch posts now st1.statusMap }
    if more then { stm with events := stm.events ++ [BEvent.sleep] } else stm
  | BatchResult.err =>
    { st1 with events := st1.events ++ [BEvent.errorLog i (i + 100)] }

/-- The batch loop of `get_final_post_status` (lines 29-68 of
collect_data_2.py), with the `for i in range(0, len, 100)` loop rendered as
fuel-indexed recursion (the fuel is an upper bound on the number of batches;
`get_final_post_status` supplies `ids.length`, which always suffices).
Each iteration processes the slice `ids[i:i+100]`. -/
def gfpsAux (oracle : List String → BatchResult) (now : Int) (ids : List String) :
    Nat → Nat → P2State → P2State
  | 0, _, st => st
  | Nat.succ fuel, i, st =>
    if i < ids.length then
      gfpsAux oracle now ids fuel (i + 100)
        (batchStep oracle now ((ids.drop i).take 100) (decide (i + 100 < ids.length)) i st)
    else st

/-- `get_final_post_status` (lines 20-71 of collect_data_2.py): runs the
batch loop from index 0 on an empty status map, against a bulk-info oracle. -/
def get_final_post_status (oracle : List String → BatchResult) (now : Int)
    (ids : List String) : P2State :=
  gfpsAux oracle now ids ids.length 0 { statusMap := [], events := [] }

/-- The cohort join (lines 111-118 of collect_data_2.py):
`df.set_index('post_fullname').join(status_df)` is a pandas left join of the
Pass 1 table against the status mapping on the post identifier; since the
status mapping is a dict its keys are unique, so the join keeps each Pass 1
row exactly once and attaches the looked-up Status Record when present. -/
def cohort_join (rows : List PostRecord) (status : List (String × StatusRec)) :
    List (PostRecord × Option StatusRec) :=
  rows.map (fun r => (r, lookupA status r.post_fullname))

/- ### Chunk-structured reference view of the batch loop -/

/-- Fuel-indexed worker for `chunk100`. -/
def chunkGo : Nat → List String → List (List String)
  | 0, _ => []
  | _ + 1, [] => []
  | fuel + 1, x :: xs => ((x :: xs).take 100) :: chunkGo fuel ((x :: xs).drop 100)

/-- The consecutive 100-element slices `ids[0:100], ids[100:200], ...` that
the batch loop visits. -/
def chunk100 (l : List String) : List (List String) :=
  chunkGo l.length l

theorem chunkGo_congr : ∀ (f1 f2 : Nat) (l : List String),
    l.length ≤ f1 → l.length ≤ f2 → chunkGo f1 l = chunkGo f2 l := by
  intro f1
  induction f1 with
  | zero =>
    intro f2 l h1 _
    have : l = [] := List.eq_nil_of_length_eq_zero (Nat.le_zero.mp h1)
    subst this
    cases f2 <;> rfl
  | succ f ih =>
    intro f2 l h1 h2
    cases l with
    | nil => cases f2 <;> rfl
    | cons x xs =>
      cases f2 with
      | zero => simp at h2
      | succ g =>
        simp only [chunkGo]
        have hlen : ((x :: xs).drop 100).length ≤ f := by
          simp only [List.length_drop, List.length_cons]
          simp only [List.length_cons] at h1
          omega
        have hlen2 : ((x :: xs).drop 100).length ≤ g := by
          simp only [List.length_drop, List.length_cons]
          simp only [List.length_cons] at h2
          omega
        rw [ih _ _ hlen hlen2]

theorem chunk100_nil : chunk100 [] = [] := rfl

theorem chunk100_unfold (l : List String) (h : l ≠ []) :
    chunk100 l = l.take 100 :: chunk100 (l.drop 100) := by
  cases l with
  | nil => exact absurd rfl h
  | cons x xs =>
    show chunkGo (x :: xs).length (x :: xs) = _
    simp only [List.length_cons, chunkGo]
    congr 1
    exact chunkGo_congr xs.length ((x :: xs).drop 100).length ((x :: xs).drop 100)
      (by simp only [List.length_drop, List.length_cons]; omega) (Nat.le_refl _)

theorem chunk100_eq_nil_iff (l : List String) : chunk100 l = [] ↔ l = [] := by
  constructor
  · intro h
    by_contra hne
    rw [chunk100_unfold l hne] at h
    exact List.cons_ne_nil _ _ h
  · intro h; subst h; rfl

/-- Ceiling-division step: one more batch of at most 100. -/
theorem ceilStep (n : Nat) (h : 1 ≤ n) : (n - 100 + 99) / 100 + 1 = (n + 99) / 100 := by
  have e : n + 99 = n - 1 + 100 := by omega
  rw [e, Nat.add_div_right _ (by norm_num : (0:Nat) < 100)]
  have : (n - 100 + 99) / 100 = (n - 1) / 100 := by
    rcases Nat.lt_or_ge n 101 with hc | hc
    · have e1 : n - 100 = 0 := by omega
      rw [e1, Nat.div_eq_of_lt (by norm_num), Nat.div_eq_of_lt (by omega)]
    · have e1 : n - 100 + 99 = n - 1 := by omega
      rw [e1]
  omega

theorem chunkGo_length : ∀ (fuel : Nat) (l : List String), l.length ≤ fuel →
    (chunkGo fuel l).length = (l.length + 99) / 100 := by
  intro fuel
  induction fuel with
  | zero =>
    intro l h
    have : l = [] := List.eq_nil_of_length_eq_zero (Nat.le_zero.mp h)
    subst this; rfl
  | succ f ih =>
    intro l h
    cases l with
    | nil => rfl
    | cons x xs =>
      have hlen : ((x :: xs).drop 100).length ≤ f := by
        simp only [List.length_drop, List.length_cons]
        simp only [List.length_cons] at h
        omega
      simp only [chunkGo, List.length_cons]
      rw [ih _ hlen]
      simp only [List.length_drop, List.length_cons]
      exact ceilStep (xs.length + 1) (by omega)

theorem chunk100_length (l : List String) :
    (chunk100 l).length = (l.length + 99) / 100 :=
  chunkGo_length l.length l (Nat.le_refl _)

theorem chunkGo_flatten : ∀ (fuel : Nat) (l : List String), l.length ≤ fuel →
    (chunkGo fuel l).flatten = l := by
  intro fuel
  induction fuel with
  | zero =>
    intro l h
    have : l = [] := List.eq_nil_of_length_eq_zero (Nat.le_zero.mp h)
    subst this; rfl
  | succ f ih =>
    intro l h
    cases l with
    | nil => rfl
    | cons x xs =>
      have hlen : ((x :: xs).drop 100).length ≤ f := by
        simp only [List.length_drop, List.length_cons]
        simp only [List.length_cons] at h
        omega
      simp only [chunkGo, List.flatten_cons]
      rw [ih _ hlen]
      exact List.take_append_drop 100 (x :: xs)

theorem chunk100_flatten (l : List String) : (chunk100 l).flatten = l :=
  chunkGo_flatten l.length l (Nat.le_refl _)

theorem chunkGo_le : ∀ (fuel : Nat) (l : List String) (b : List String),
    b ∈ chunkGo fuel l → b.length ≤ 100 := by
  intro fuel
  induction fuel with
  | zero => intro l b h; simp [chunkGo] at h
  | succ f ih =>
    intro l b h
    cases l with
    | nil => simp [chunkGo] at h
    | cons x xs =>
      simp only [chunkGo, List.mem_cons] at h
      rcases h with h | h
      · subst h
        simp only [List.length_take]
        omega
      · exact ih _ _ h

theorem chunk100_le (l : List String) (b : List String) (h : b ∈ chunk100 l) :
    b.length ≤ 100 :=
  chunkGo_le l.length l b h

/-- Reference view of the batch loop, structured over the list of slices;
`i` carries the start offset used in the error-log line.  The sleep guard
`i + 100 < len` of the source holds exactly when further slices remain. -/
def runChunks (oracle : List String → BatchResult) (now : Int) :
    List (List String) → Nat → P2State → P2State
  | [], _, st => st
  | b :: bs, i, st =>
    runChunks oracle now bs (i + 100) (batchStep oracle now b (!bs.isEmpty) i st)

theorem gfpsAux_eq_runChunks (oracle : List String → BatchResult) (now : Int)
    (ids : List String) : ∀ (fuel i : Nat) (st : P2State),
    ids.length ≤ i + 100 * fuel →
    gfpsAux oracle now ids fuel i st = runChunks oracle now (chunk100 (ids.drop i)) i st := by
  intro fuel
  induction fuel with
  | zero =>
    intro i st h
    have hd : ids.drop i = [] := by
      rw [List.drop_eq_nil_iff]
      omega
    rw [hd, chunk100_nil]
    rfl
  | succ f ih =>
    intro i st h
    by_cases hi : i < ids.length
    · have hne : ids.drop i ≠ [] := by
        rw [Ne, List.drop_eq_nil_iff]
        omega
      have hdd : (ids.drop i).drop 100 = ids.drop (i + 100) := List.drop_drop 100 i ids
      rw [chunk100_unfold _ hne, hdd]
      show gfpsAux oracle now ids (f + 1) i st = _
      simp only [gfpsAux, if_pos hi, runChunks]
      have hflag : (!(chunk100 (ids.drop (i + 100))).isEmpty) = decide (i + 100 < ids.length) := by
        rcases Nat.lt_or_ge (i + 100) ids.length with hc | hc
        · have h1 : chunk100 (ids.drop (i + 100)) ≠ [] := by
            rw [Ne, chunk100_eq_nil_iff, List.drop_eq_nil_iff]
            omega
          cases hx : chunk100 (ids.drop (i + 100)) with
          | nil => exact absurd hx h1
          | cons a as => simp [hc]
        · have h1 : chunk100 (ids.drop (i + 100)) = [] := by
            rw [chunk100_eq_nil_iff, List.drop_eq_nil_iff]
            omega
          rw [h1]
          simp
          omega
      rw [hflag, ih (i + 100) _ (by omega)]
    · have hd : ids.drop i = [] := by
        rw [List.drop_eq_nil_iff]
        omega
      rw [hd, chunk100_nil]
      show gfpsAux oracle now ids (f + 1) i st = _
      simp only [gfpsAux, if_neg hi]
      rfl

theorem get_final_post_status_eq (oracle : List String → BatchResult) (now : Int)
    (ids : List String) :
    get_final_post_status oracle now ids =
      runChunks oracle now (chunk100 ids) 0 { statusMap := [], events := [] } := by
  show gfpsAux oracle now ids ids.length 0 _ = _
  rw [gfpsAux_eq_runChunks oracle now ids ids.length 0 _ (by omega)]
  rfl

/-- The full effect trace of the batch loop as a function of the slice list
(written from the spec's description of pacing and error logging, to be
compared with the trace the code produces): one bulk call per slice in
order; after a successful non-final slice the pacing sleep; after a failing
slice the error log for its index range, and no sleep. -/
def eventsOf (oracle : List String → BatchResult) : List (List String) → Nat → List BEvent
  | [], _ => []
  | b :: bs, i =>
    BEvent.call b ::
      ((match oracle b with
        | BatchResult.ok _ => if bs.isEmpty then [] else [BEvent.sleep]
        | BatchResult.err => [BEvent.errorLog i (i + 100)]) ++ eventsOf oracle bs (i + 100))

/-- The final status map as a function of the slice list: each successful
slice's responses are folded in, a failing slice contributes nothing. -/
def statusOf (oracle : List String → BatchResult) (now : Int) :
    List (List String) → List (String × StatusRec) → List (String × StatusRec)
  | [], m => m
  | b :: bs, m =>
    statusOf oracle now bs
      (match oracle b with
       | BatchResult.ok posts => processBatch posts now m
       | BatchResult.err => m)

theorem batchStep_events (oracle : List String → BatchResult) (now : Int)
    (b : List String) (more : Bool) (i : Nat) (st : P2State) :
    (batchStep oracle now b more i st).events =
      st.events ++ [BEvent.call b] ++
        (match oracle b with
         | BatchResult.ok _ => if more then [BEvent.sleep] else []
         | BatchResult.err => [BEvent.errorLog i (i + 100)]) := by
  cases horacle : oracle b with
  | ok posts =>
    cases more <;> simp [batchStep, horacle]
  | err => simp [batchStep, horacle]

theorem batchStep_map (oracle : List String → BatchResult) (now : Int)
    (b : List String) (more : Bool) (i : Nat) (st : P2State) :
    (batchStep oracle now b more i st).statusMap =
      (match oracle b with
       | BatchResult.ok posts => processBatch posts now st.statusMap
       | BatchResult.err => st.statusMap) := by
  cases horacle : oracle b with
  | ok posts => cases more <;> simp [batchStep, horacle]
  | err => simp [batchStep, horacle]

theorem runChunks_events (oracle : List String → BatchResult) (now : Int) :
    ∀ (bs : List (List String)) (i : Nat) (st : P2State),
    (runChunks oracle now bs i st).events = st.events ++ eventsOf oracle bs i := by
  intro bs
  induction bs with
  | nil => intro i st; simp [runChunks, eventsOf]
  | cons b bs ih =>
    intro i st
    show (runChunks oracle now bs (i + 100) _).events = _
    rw [ih]
    rw [batchStep_events]
    cases horacle : oracle b with
    | ok posts =>
      cases hbs : bs.isEmpty <;> simp [eventsOf, horacle, hbs]
    | err => simp [eventsOf, horacle]

theorem runChunks_map (oracle : List String → BatchResult) (now : Int) :
    ∀ (bs : List (List String)) (i : Nat) (st : P2State),
    (runChunks oracle now bs i st).statusMap = statusOf oracle now bs st.statusMap := by
  intro bs
  induction bs with
  | nil => intro i st; simp [runChunks, statusOf]
  | cons b bs ih =>
    intro i st
    show (runChunks oracle now bs (i + 100) _).statusMap = _
    rw [ih, batchStep_map]
    cases horacle : oracle b with
    | ok posts => simp [statusOf, horacle]
    | err => simp [statusOf, horacle]

theorem processBatch_isSome_mono (now : Int) :
    ∀ (posts : List Post2) (m : List (String × StatusRec)) (x : String),
    (lookupA m x).isSome = true → (lookupA (processBatch posts now m) x).isSome = true := by
  intro posts
  induction posts with
  | nil => intro m x h; exact h
  | cons q qs ih =>
    intro m x h
    show (lookupA (processBatch qs now (insertA m q.fullname (mkStatus q now))) x).isSome = true
    exact ih _ _ (lookupA_insertA_isSome _ _ _ _ h)

theorem processBatch_mem (now : Int) :
    ∀ (posts : List Post2) (m : List (String × StatusRec)) (p : Post2), p ∈ posts →
    (lookupA (processBatch posts now m) p.fullname).isSome = true := by
  intro posts
  induction posts with
  | nil => intro m p h; simp at h
  | cons q qs ih =>
    intro m p h
    show (lookupA (processBatch qs now (insertA m q.fullname (mkStatus q now))) p.fullname).isSome = true
    rcases List.mem_cons.mp h with h | h
    · subst h
      exact processBatch_isSome_mono now qs _ _
        (by rw [lookupA_insertA_self]; rfl)
    · exact ih _ _ h

theorem processBatch_lookup_ne (now : Int) :
    ∀ (posts : List Post2) (m : List (String × StatusRec)) (x : String),
    (∀ p ∈ posts, p.fullname ≠ x) →
    lookupA (processBatch posts now m) x = lookupA m x := by
  intro posts
  induction posts with
  | nil => intro m x _; rfl
  | cons q qs ih =>
    intro m x h
    show lookupA (processBatch qs now (insertA m q.fullname (mkStatus q now))) x = _
    rw [ih _ _ fun p hp => h p (List.mem_cons_of_mem _ hp)]
    exact lookupA_insertA_ne _ _ _ _
      (fun hc => h q (List.mem_cons_self _ _) hc.symm)

theorem statusOf_isSome_mono (oracle : List String → BatchResult) (now : Int) :
    ∀ (bs : List (List String)) (m : List (String × StatusRec)) (x : String),
    (lookupA m x).isSome = true →
    (lookupA (statusOf oracle now bs m) x).isSome = true := by
  intro bs
  induction bs with
  | nil => intro m x h; exact h
  | cons b bs ih =>
    intro m x h
    show (lookupA (statusOf oracle now bs _) x).isSome = true
    cases horacle : oracle b with
    | ok posts =>
      simp only [horacle]
      exact ih _ _ (processBatch_isSome_mono now posts m x h)
    | err =>
      simp only [horacle]
      exact ih _ _ h

theorem statusOf_ok_mem (oracle : List String → BatchResult) (now : Int) :
    ∀ (bs : List (List String)) (m : List (String × StatusRec)) (b : List String)
      (posts : List Post2) (p : Post2), b ∈ bs → oracle b = BatchResult.ok posts →
    p ∈ posts → (lookupA (statusOf oracle now bs m) p.fullname).isSome = true := by
  intro bs
  induction bs with
  | nil => intro m b posts p h; simp at h
  | cons b0 bs ih =>
    intro m b posts p hb horacle hp
    show (lookupA (statusOf oracle now bs _) p.fullname).isSome = true
    rcases List.mem_cons.mp hb with hb | hb
    · subst hb
      rw [horacle]
      exact statusOf_isSome_mono oracle now bs _ _ (processBatch_mem now posts m p hp)
    · cases h0 : oracle b0 <;> simp only [h0] <;> exact ih _ b posts p hb horacle hp

theorem statusOf_lookup_none (oracle : List String → BatchResult) (now : Int) (x : String) :
    ∀ (bs : List (List String)) (m : List (String × StatusRec)),
    (∀ b ∈ bs, ∀ posts, oracle b = BatchResult.ok posts → ∀ p ∈ posts, p.fullname ≠ x) →
    lookupA (statusOf oracle now bs m) x = lookupA m x := by
  intro bs
  induction bs with
  | nil => intro m _; rfl
  | cons b bs ih =>
    intro m h
    show lookupA (statusOf oracle now bs _) x = _
    cases horacle : oracle b with
    | ok posts =>
      simp only [horacle]
      rw [ih _ fun b' hb' => h b' (List.mem_cons_of_mem _ hb')]
      exact processBatch_lookup_ne now posts m x
        (h b (List.mem_cons_self _ _) posts horacle)
    | err =>
      simp only [horacle]
      exact ih _ fun b' hb' => h b' (List.mem_cons_of_mem _ hb')

theorem eventsOf_err_mem (oracle : List String → BatchResult) :
    ∀ (bs : List (List String)) (i j : Nat) (hj : j < bs.length),
    oracle (bs.get ⟨j, hj⟩) = BatchResult.err →
    BEvent.errorLog (i + 100 * j) (i + 100 * j + 100) ∈ eventsOf oracle bs i := by
  intro bs
  induction bs with
  | nil => intro i j hj; simp at hj
  | cons b bs ih =>
    intro i j hj h
    cases j with
    | zero =>
      simp only [List.get] at h
      simp only [eventsOf, h, Nat.mul_zero, Nat.add_zero]
      exact List.mem_cons_of_mem _ (List.mem_append_left _ (List.mem_cons_self _ _))
    | succ j =>
      have e : i + 100 * (j + 1) = (i + 100) + 100 * j := by ring
      rw [e]
      have hmem := ih (i + 100) j (by simpa using hj) (by simpa using h)
      simp only [eventsOf]
      exact List.mem_cons_of_mem _ (List.mem_append_right _ hmem)

/-- In a list of lists whose concatenation has no duplicates, an element
determines the unique slice that contains it. -/
theorem flatten_nodup_unique {α : Type} :
    ∀ (L : List (List α)) (b1 b2 : List α) (x : α), L.flatten.Nodup →
    b1 ∈ L → b2 ∈ L → x ∈ b1 → x ∈ b2 → b1 = b2 := by
  intro L
  induction L with
  | nil => intro b1 b2 x _ h; simp at h
  | cons h t ih =>
    intro b1 b2 x hnd hb1 hb2 hx1 hx2
    rw [List.flatten_cons, List.nodup_append] at hnd
    obtain ⟨_, hnt, hdisj⟩ := hnd
    rcases List.mem_cons.mp hb1 with hb1' | hb1'
    · rcases List.mem_cons.mp hb2 with hb2' | hb2'
      · rw [hb1', hb2']
      · subst hb1'
        have hxt : x ∈ t.flatten := List.mem_flatten.mpr ⟨b2, hb2', hx2⟩
        exact absurd hxt (fun hc => hdisj hx1 hc)
    · rcases List.mem_cons.mp hb2 with hb2' | hb2'
      · subst hb2'
        have hxt : x ∈ t.flatten := List.mem_flatten.mpr ⟨b1, hb1', hx1⟩
        exact absurd hxt (fun hc => hdisj hx2 hc)
      · exact ih b1 b2 x hnt hb1' hb2' hx1 hx2

/- ### Pass 1 lemmas -/

/-- The snapshot invariant of the spec's data-model section: a snapshot is
unavailable exactly when all its quantitative fields are null. -/
def goodSnap (s : Snapshot) : Prop :=
  s.author_unavailable = true ↔
    (s.account_age_days = none ∧ s.link_karma = none ∧
     s.comment_karma = none ∧ s.total_karma = none)

instance (s : Snapshot) : Decidable (goodSnap s) := by
  unfold goodSnap
  infer_instance

theorem goodSnap_deleted : goodSnap deletedSnapshot := by
  simp [goodSnap, deletedSnapshot]

theorem goodSnap_unavail (u : String) : goodSnap (unavailSnapshot u) := by
  simp [goodSnap, unavailSnapshot]

theorem goodSnap_error : goodSnap errorSnapshot := by
  simp [goodSnap, errorSnapshot]

/-- Shape of the fresh-fetch path: exactly one fetch event, an optional
trailing sleep (present on the successful-fetch path only), one cache
insertion under the real username key, and the cached snapshot is the
returned one and satisfies the snapshot invariant. -/
theorem fetchAuthor_shape (a : AuthorRef) (now : Int) (st : UIState) :
    ∃ (s : Snapshot) (tail : List UEvent),
      (fetchAuthor a now st).1 = s ∧
      (fetchAuthor a now st).2.cache = insertA st.cache a.name s ∧
      (fetchAuthor a now st).2.events = st.events ++ [UEvent.fetch a.name] ++ tail ∧
      (tail = [] ∨ tail = [UEvent.sleep]) ∧
      goodSnap s := by
  cases hf : a.fetch with
  | ok created lk ck iv =>
    cases created with
    | none =>
      refine ⟨unavailSnapshot a.name, [], ?_, ?_, ?_, Or.inl rfl, goodSnap_unavail _⟩ <;>
        simp [fetchAuthor, hf]
    | some c =>
      refine ⟨{ username := a.name,
                account_age_days := some (Int.fdiv (now - c) 86400),
                link_karma := some lk, comment_karma := some ck,
                total_karma := some (lk + ck),
                is_verified := some (iv.getD false),
                author_unavailable := false }, [UEvent.sleep], ?_, ?_, ?_, Or.inr rfl, ?_⟩
      · simp [fetchAuthor, hf]
      · simp [fetchAuthor, hf]
      · simp [fetchAuthor, hf]
      · simp [goodSnap]
  | notFound =>
    refine ⟨unavailSnapshot a.name, [], ?_, ?_, ?_, Or.inl rfl, goodSnap_unavail _⟩ <;>
      simp [fetchAuthor, hf]
  | forbidden =>
    refine ⟨unavailSnapshot a.name, [], ?_, ?_, ?_, Or.inl rfl, goodSnap_unavail _⟩ <;>
      simp [fetchAuthor, hf]
  | otherError =>
    refine ⟨errorSnapshot, [], ?_, ?_, ?_, Or.inl rfl, goodSnap_error⟩ <;>
      simp [fetchAuthor, hf]

theorem cui_none (now : Int) (st : UIState) :
    collect_user_info none now st = (deletedSnapshot, st) := rfl

theorem cui_deleted (a : AuthorRef) (now : Int) (st : UIState)
    (h : a.name = "[deleted]") :
    collect_user_info (some a) now st = (deletedSnapshot, st) := by
  simp [collect_user_info, h]

theorem cui_hit (a : AuthorRef) (now : Int) (st : UIState) (snap : Snapshot)
    (h1 : a.name ≠ "[deleted]") (h2 : lookupA st.cache a.name = some snap) :
    collect_user_info (some a) now st = (snap, st) := by
  simp [collect_user_info, h1, h2]

theorem cui_miss (a : AuthorRef) (now : Int) (st : UIState)
    (h1 : a.name ≠ "[deleted]") (h2 : lookupA st.cache a.name = none) :
    collect_user_info (some a) now st = fetchAuthor a now st := by
  simp [collect_user_info, h1, h2]

theorem countFetch_append (u : String) (e1 e2 : List UEvent) :
    countFetch u (e1 ++ e2) = countFetch u e1 + countFetch u e2 :=
  List.countP_append _ _ _

theorem countFetch_fetch (u n : String) :
    countFetch u [UEvent.fetch n] = if n = u then 1 else 0 := by
  by_cases h : n = u <;>
    simp [countFetch, List.countP_cons, h]

theorem countFetch_sleep_tail (u : String) (tail : List UEvent)
    (h : tail = [] ∨ tail = [UEvent.sleep]) : countFetch u tail = 0 := by
  rcases h with h | h <;> subst h <;> simp [countFetch, List.countP_cons]

/-- The per-username cache/fetch coupling that makes the memoisation work:
at most one fetch so far, and any fetch implies the username is cached. -/
def fetchInv (u : String) (st : UIState) : Prop :=
  countFetch u st.events ≤ 1 ∧
    (1 ≤ countFetch u st.events → (lookupA st.cache u).isSome = true)

theorem fetchInv_step (u : String) (a : Option AuthorRef) (now : Int) (st : UIState)
    (h : fetchInv u st) : fetchInv u (collect_user_info a now st).2 := by
  cases a with
  | none => rw [cui_none]; exact h
  | some a =>
    by_cases hd : a.name = "[deleted]"
    · rw [cui_deleted a now st hd]; exact h
    · cases hl : lookupA st.cache a.name with
      | some snap => rw [cui_hit a now st snap hd hl]; exact h
      | none =>
        rw [cui_miss a now st hd hl]
        obtain ⟨s, tail, _, hc, he, htail, _⟩ := fetchAuthor_shape a now st
        obtain ⟨h1, h2⟩ := h
        have hcount : countFetch u (fetchAuthor a now st).2.events =
            countFetch u st.events + (if a.name = u then 1 else 0) := by
          rw [he, countFetch_append, countFetch_append, countFetch_fetch,
            countFetch_sleep_tail u tail htail]
          omega
        by_cases hn : a.name = u
        · subst hn
          have hz : countFetch a.name st.events = 0 := by
            by_contra hnz
            have : (lookupA st.cache a.name).isSome = true := h2 (by omega)
            rw [hl] at this
            simp at this
          constructor
          · rw [hcount, hz]; simp
          · intro _
            rw [hc]
            rw [lookupA_insertA_self]
            rfl
        · constructor
          · rw [hcount, if_neg hn]; omega
          · intro hge
            rw [hcount, if_neg hn] at hge
            rw [hc]
            exact lookupA_insertA_isSome _ _ _ _ (h2 (by omega))

theorem runLookups_nil (now : Int) (st : UIState) : runLookups now [] st = st := rfl

theorem runLookups_cons (now : Int) (a : Option AuthorRef)
    (as : List (Option AuthorRef)) (st : UIState) :
    runLookups now (a :: as) st = runLookups now as (collect_user_info a now st).2 := rfl

theorem fetchInv_run (u : String) (now : Int) (authors : List (Option AuthorRef)) :
    ∀ st : UIState, fetchInv u st → fetchInv u (runLookups now authors st) := by
  induction authors with
  | nil => intro st h; exact h
  | cons a as ih =>
    intro st h
    rw [runLookups_cons]
    exact ih _ (fetchInv_step u a now st h)

/- ### Concrete fixtures -/

/-- The state at the start of a collection run: empty cache, empty trace. -/
def emptyUI : UIState := { cache := [], events := [] }

/-- A bulk-info oracle whose every call raises. -/
def failOracle : List String → BatchResult := fun _ => BatchResult.err

/-- 101 identifiers: enough for two batches. -/
def ids101 : List String := List.replicate 101 "x"

/-- Number of pacing sleeps in a Pass 2 trace. -/
def countSleep (evs : List BEvent) : Nat :=
  evs.countP (fun e => e == BEvent.sleep)

/-- Number of bulk-info calls in a Pass 2 trace. -/
def countCalls (evs : List BEvent) : Nat :=
  evs.countP (fun e => match e with | BEvent.call _ => true | _ => false)

def sampleAttrs : PostAttrs :=
  { fullname := "t3_a", created_utc := 5, subreddit := "test", title := "hello",
    selftext := none, domain := "self.test", score := 1, num_comments := 0,
    upvote_ratio := 1, link_flair_text := none, author := none }

def sampleRecord : PostRecord := mkPostRecord 10 sampleAttrs deletedSnapshot

def samplePost2 : Post2 :=
  { fullname := "t3_c", selftext := some "body", title := "t",
    removed_by_category := some "moderator", author := some "alice", score := 10,
    num_comments := 2, upvote_ratio := 1, locked := false, archived := false,
    is_robot_indexable := some false }

def sampleStatus : StatusRec := mkStatus samplePost2 3

/- ### Claim theorems -/

/-- C1: within one run, `collect_user_info` performs the expensive external
fetch at most once per unique username, and once a username is cached every
subsequent lookup returns the cached snapshot with no state change (hence
no new fetch). -/
theorem collect_user_info_fetch_once (now : Int) (authors : List (Option AuthorRef))
    (u : String) :
    countFetch u (runLookups now authors emptyUI).events ≤ 1 ∧
    (∀ (st : UIState) (snap : Snapshot) (f : FetchOutcome), u ≠ "[deleted]" →
      lookupA st.cache u = some snap →
      collect_user_info (some { name := u, fetch := f }) now st = (snap, st)) := by
  constructor
  · have h0 : fetchInv u emptyUI := by
      constructor
      · simp [countFetch, emptyUI]
      · intro hx
        simp [countFetch, emptyUI] at hx
    exact (fetchInv_run u now authors emptyUI h0).1
  · intro st snap f hne hl
    exact cui_hit { name := u, fetch := f } now st snap hne hl

theorem collect_user_info_fetch_once_witness :
    countFetch "alice" (runLookups 0 [] emptyUI).events ≤ 1 ∧
    collect_user_info (some { name := "alice", fetch := FetchOutcome.notFound }) 0
        { cache := [("alice", errorSnapshot)], events := [] } =
      (errorSnapshot, { cache := [("alice", errorSnapshot)], events := [] }) :=
  ⟨(collect_user_info_fetch_once 0 [] "alice").1,
   (collect_user_info_fetch_once 0 [] "alice").2
     { cache := [("alice", errorSnapshot)], events := [] } errorSnapshot
     FetchOutcome.notFound (by decide) (by simp [lookupA])⟩

/-- C6: `collect_user_info` is total (every input, including a null author,
the `[deleted]` username and every failing fetch, yields a snapshot rather
than an exception), and assuming every cached snapshot satisfies the
invariant, the returned snapshot has `author_unavailable = true` iff all of
its age/karma fields are null, and the cache keeps satisfying the
invariant. -/
theorem collect_user_info_snapshot_invariant (author : Option AuthorRef) (now : Int)
    (st : UIState) (h : ∀ p ∈ st.cache, goodSnap p.2) :
    goodSnap (collect_user_info author now st).1 ∧
      ∀ p ∈ (collect_user_info author now st).2.cache, goodSnap p.2 := by
  cases author with
  | none => rw [cui_none]; exact ⟨goodSnap_deleted, h⟩
  | some a =>
    by_cases hd : a.name = "[deleted]"
    · rw [cui_deleted a now st hd]; exact ⟨goodSnap_deleted, h⟩
    · cases hl : lookupA st.cache a.name with
      | some snap =>
        rw [cui_hit a now st snap hd hl]
        exact ⟨h _ (lookupA_mem _ _ _ hl), h⟩
      | none =>
        rw [cui_miss a now st hd hl]
        obtain ⟨s, tail, h1, hc, _, _, hg⟩ := fetchAuthor_shape a now st
        constructor
        · rw [h1]; exact hg
        · rw [hc]
          intro p hp
          rcases mem_insertA _ _ _ _ hp with hp | hp
          · exact h p hp
          · rw [hp]; exact hg

theorem collect_user_info_snapshot_invariant_witness :
    goodSnap (collect_user_info (some { name := "bob", fetch := FetchOutcome.otherError })
      0 emptyUI).1 ∧
    ∀ p ∈ (collect_user_info (some { name := "bob", fetch := FetchOutcome.otherError })
      0 emptyUI).2.cache, goodSnap p.2 :=
  collect_user_info_snapshot_invariant
    (some { name := "bob", fetch := FetchOutcome.otherError }) 0 emptyUI
    (by intro p hp; simp [emptyUI] at hp)

/-- C8: the pacing sleep can only occur on the fresh-fetch path (any new
sleep event comes with a new fetch event), and a lookup that receives a
null author, the `[deleted]` username, or a cache hit leaves the trace
unchanged — no pacing delay. -/
theorem collect_user_info_sleep_only_on_fetch (a : Option AuthorRef) (now : Int)
    (st : UIState) :
    ((collect_user_info a now st).2.events = st.events ∨
      ∃ (u : String) (tail : List UEvent),
        (collect_user_info a now st).2.events = st.events ++ [UEvent.fetch u] ++ tail ∧
        (tail = [] ∨ tail = [UEvent.sleep])) ∧
    ((a = none ∨ ∃ r : AuthorRef, a = some r ∧
        (r.name = "[deleted]" ∨ (lookupA st.cache r.name).isSome = true)) →
      (collect_user_info a now st).2.events = st.events) := by
  cases a with
  | none => rw [cui_none]; exact ⟨Or.inl rfl, fun _ => rfl⟩
  | some a =>
    by_cases hd : a.name = "[deleted]"
    · rw [cui_deleted a now st hd]
      exact ⟨Or.inl rfl, fun _ => rfl⟩
    · cases hl : lookupA st.cache a.name with
      | some snap =>
        rw [cui_hit a now st snap hd hl]
        exact ⟨Or.inl rfl, fun _ => rfl⟩
      | none =>
        rw [cui_miss a now st hd hl]
        obtain ⟨s, tail, _, _, he, htail, _⟩ := fetchAuthor_shape a now st
        constructor
        · exact Or.inr ⟨a.name, tail, he, htail⟩
        · intro hcase
          rcases hcase with hcase | ⟨r, hr, hcase⟩
          · exact Option.noConfusion hcase
          · cases Option.some.injEq .. ▸ hr
            rcases hcase with hcase | hcase
            · exact absurd hcase hd
            · rw [hl] at hcase
              simp at hcase

theorem collect_user_info_sleep_only_on_fetch_witness :
    (collect_user_info none 0 emptyUI).2.events = emptyUI.events :=
  (collect_user_info_sleep_only_on_fetch none 0 emptyUI).2 (Or.inl rfl)

/-- C10: a null-author lookup and a `[deleted]` lookup return the constant
unavailable snapshot and leave the whole state (cache and trace) untouched,
and any call that changes the cache has issued an external fetch in this
very call — only fetched results and caught fetch failures populate the
cache. -/
theorem collect_user_info_no_cache_write (now : Int) (st : UIState) :
    collect_user_info none now st = (deletedSnapshot, st) ∧
    (∀ r : AuthorRef, r.name = "[deleted]" →
      collect_user_info (some r) now st = (deletedSnapshot, st)) ∧
    (∀ a : Option AuthorRef, (collect_user_info a now st).2.cache ≠ st.cache →
      ∃ (u : String) (tail : List UEvent),
        (collect_user_info a now st).2.events = st.events ++ [UEvent.fetch u] ++ tail) := by
  refine ⟨cui_none now st, fun r h => cui_deleted r now st h, ?_⟩
  intro a hne
  cases a with
  | none => rw [cui_none] at hne; exact absurd rfl hne
  | some a =>
    by_cases hd : a.name = "[deleted]"
    · rw [cui_deleted a now st hd] at hne; exact absurd rfl hne
    · cases hl : lookupA st.cache a.name with
      | some snap => rw [cui_hit a now st snap hd hl] at hne; exact absurd rfl hne
      | none =>
        rw [cui_miss a now st hd hl] at hne ⊢
        obtain ⟨s, tail, _, _, he, _, _⟩ := fetchAuthor_shape a now st
        exact ⟨a.name, tail, he⟩

theorem collect_user_info_no_cache_write_witness :
    collect_user_info (some { name := "[deleted]", fetch := FetchOutcome.notFound }) 7
      emptyUI = (deletedSnapshot, emptyUI) :=
  (collect_user_info_no_cache_write 7 emptyUI).2.1
    { name := "[deleted]", fetch := FetchOutcome.notFound } rfl

/-- C7: `collect_initial_cohort` never aborts on a failing post: the record
list is exactly the successfully constructed records in source order
(projected to identifiers, they are the fullnames of exactly the posts
whose construction succeeded, in order), and the returned identifier list
is parallel to the record list — it is its `post_fullname` projection, so
both have the same length and the i-th identifier is the i-th record's
`post_fullname`. -/
theorem collect_initial_cohort_parallel (now : Int) (posts : List PostRef) (st : UIState) :
    (collect_initial_cohort now posts st).2.1 =
      (collect_initial_cohort now posts st).1.map (fun r => r.post_fullname) ∧
    (collect_initial_cohort now posts st).1.map (fun r => r.post_fullname) =
      posts.filterMap (fun p => p.attrs.map (fun a => a.fullname)) ∧
    (collect_initial_cohort now posts st).1.length =
      posts.countP (fun p => p.attrs.isSome) := by
  induction posts generalizing st with
  | nil => exact ⟨rfl, rfl, rfl⟩
  | cons p ps ih =>
    cases hp : p.attrs with
    | none =>
      have hcpd : collect_post_data now p st = (none, st) := by
        simp [collect_post_data, hp]
      obtain ⟨i1, i2, i3⟩ := ih st
      refine ⟨?_, ?_, ?_⟩ <;> simp only [collect_initial_cohort, hcpd]
      · exact i1
      · rw [i2]
        simp [List.filterMap_cons, hp]
      · rw [i3]
        simp [List.countP_cons, hp]
    | some a =>
      have hcpd : collect_post_data now p st =
          (some (mkPostRecord now a (collect_user_info a.author now st).1),
            (collect_user_info a.author now st).2) := by
        simp [collect_post_data, hp]
      obtain ⟨i1, i2, i3⟩ := ih (collect_user_info a.author now st).2
      refine ⟨?_, ?_, ?_⟩ <;> simp only [collect_initial_cohort, hcpd]
      · simp only [List.map_cons]
        rw [← i1]
      · simp only [List.map_cons]
        rw [i2]
        simp [List.filterMap_cons, hp, mkPostRecord]
      · simp only [List.length_cons]
        rw [i3]
        simp [List.countP_cons, hp]

/-- C9: every record produced by `collect_post_data` has
`post_age_seconds_at_capture` equal to the capture timestamp minus the
creation timestamp (in seconds), and when the capture time is not earlier
than the creation time the age is non-negative. -/
theorem collect_post_data_age (now : Int) (p : PostRef) (a : PostAttrs) (st : UIState)
    (h : p.attrs = some a) :
    ∃ r : PostRecord, (collect_post_data now p st).1 = some r ∧
      r.created_utc = a.created_utc ∧ r.captured_at_utc = now ∧
      r.post_age_seconds_at_capture = r.captured_at_utc - r.created_utc ∧
      (r.created_utc ≤ r.captured_at_utc → 0 ≤ r.post_age_seconds_at_capture) := by
  refine ⟨mkPostRecord now a (collect_user_info a.author now st).1, ?_, rfl, rfl, rfl, ?_⟩
  · simp [collect_post_data, h]
  · intro hle
    simp only [mkPostRecord] at hle ⊢
    omega

theorem collect_post_data_age_witness :
    ∃ r : PostRecord,
      (collect_post_data 10 { attrs := some sampleAttrs } emptyUI).1 = some r ∧
      r.created_utc = sampleAttrs.created_utc ∧ r.captured_at_utc = 10 ∧
      r.post_age_seconds_at_capture = r.captured_at_utc - r.created_utc ∧
      (r.created_utc ≤ r.captured_at_utc → 0 ≤ r.post_age_seconds_at_capture) :=
  collect_post_data_age 10 { attrs := some sampleAttrs } sampleAttrs emptyUI rfl

/-- C3: the cohort join is a left outer join on the post identifier: the
combined output has exactly one row per Pass 1 row, in order; the i-th
output row carries the i-th Pass 1 record together with the status looked
up under its identifier; every output row originates from a Pass 1 row;
the looked-up status is null exactly on identifiers that are not keys of
the status mapping, and a successful lookup returns a stored binding. -/
theorem cohort_join_left_outer (rows : List PostRecord)
    (status : List (String × StatusRec)) :
    (cohort_join rows status).length = rows.length ∧
    (∀ (i : Nat) (h1 : i < (cohort_join rows status).length) (h2 : i < rows.length),
      (cohort_join rows status).get ⟨i, h1⟩ =
        (rows.get ⟨i, h2⟩, lookupA status (rows.get ⟨i, h2⟩).post_fullname)) ∧
    (∀ c ∈ cohort_join rows status, c.1 ∈ rows) ∧
    (∀ r : PostRecord, (∀ q ∈ status, q.1 ≠ r.post_fullname) →
      lookupA status r.post_fullname = none) ∧
    (∀ (r : PostRecord) (v : StatusRec), lookupA status r.post_fullname = some v →
      (r.post_fullname, v) ∈ status) := by
  refine ⟨List.length_map _ _, ?_, ?_, ?_, ?_⟩
  · intro i h1 h2
    simp [cohort_join, List.get_eq_getElem, List.getElem_map]
  · intro c hc
    obtain ⟨r, hr, hrc⟩ := List.mem_map.mp hc
    rw [← hrc]
    exact hr
  · intro r h
    exact lookupA_eq_none status _ h
  · intro r v h
    exact lookupA_mem _ _ _ h

theorem cohort_join_left_outer_witness :
    (cohort_join [sampleRecord] [("t3_a", sampleStatus)]).length = 1 ∧
    (cohort_join [sampleRecord] [("t3_a", sampleStatus)]).get
        ⟨0, by simp [cohort_join]⟩ = (sampleRecord, some sampleStatus) ∧
    lookupA ([] : List (String × StatusRec)) sampleRecord.post_fullname = none := by
  have T := cohort_join_left_outer [sampleRecord] [("t3_a", sampleStatus)]
  have T0 := cohort_join_left_outer [sampleRecord] ([] : List (String × StatusRec))
  refine ⟨T.1, ?_, T0.2.2.2.1 sampleRecord (by simp)⟩
  have h2 := T.2.1 0 (by simp [cohort_join]) (by simp)
  rw [h2]
  rfl

/-- C4: for every post examined in Pass 2, `is_removed_inferred` is the OR
of `is_removed_official`, `is_removed_content` and the discoverability flag
being present and false; official removal implies inferred removal; and
`is_deleted` is the OR of `is_deleted_author` and `is_deleted_content`. -/
theorem mkStatus_flags (p : Post2) (now : Int) :
    (mkStatus p now).is_removed_inferred =
      ((mkStatus p now).is_removed_official || (mkStatus p now).is_removed_content ||
        (p.is_robot_indexable == some false)) ∧
    ((mkStatus p now).is_removed_official = true →
      (mkStatus p now).is_removed_inferred = true) ∧
    (mkStatus p now).is_deleted =
      ((mkStatus p now).is_deleted_author || (mkStatus p now).is_deleted_content) := by
  refine ⟨rfl, ?_, rfl⟩
  intro h
  simp only [mkStatus] at h ⊢
  rw [h]
  rfl

theorem mkStatus_flags_witness :
    (mkStatus samplePost2 3).is_removed_inferred = true :=
  (mkStatus_flags samplePost2 3).2.1 rfl

/-- C2 counterexample: with 101 identifiers (two batches, the first one
non-final) and a bulk-info oracle whose calls raise, the loop still issues
both bulk calls but applies no pacing delay at all — the `time.sleep(2)`
sits inside the `try`, so the failing first batch skips the delay the claim
requires after every non-final batch. -/
theorem get_final_post_status_delay_cex :
    ids101.length = 101 ∧
    (chunk100 ids101).length = 2 ∧
    countCalls (get_final_post_status failOracle 0 ids101).events = 2 ∧
    countSleep (get_final_post_status failOracle 0 ids101).events = 0 ∧
    countSleep (get_final_post_status failOracle 0 ids101).events ≠
      (chunk100 ids101).length - 1 := by
  refine ⟨rfl, rfl, rfl, rfl, ?_⟩
  intro hc
  have h1 : countSleep (get_final_post_status failOracle 0 ids101).events = 0 := rfl
  have h2 : (chunk100 ids101).length = 2 := rfl
  rw [h1, h2] at hc
  exact absurd hc (by decide)

/-- C2 amended: the batch loop issues exactly `ceil(N/100)` bulk calls over
the consecutive at-most-100 slices of the input in order, and its full
trace is `eventsOf`: the pacing delay follows every non-final batch whose
bulk call succeeds (never the final batch, and never a batch whose call
raises, since the sleep sits inside the `try`); a failing batch logs its
index range instead. -/
theorem get_final_post_status_schedule (oracle : List String → BatchResult) (now : Int)
    (ids : List String) :
    (get_final_post_status oracle now ids).events = eventsOf oracle (chunk100 ids) 0 ∧
    (chunk100 ids).length = (ids.length + 99) / 100 ∧
    (∀ b ∈ chunk100 ids, b.length ≤ 100) ∧
    (chunk100 ids).flatten = ids := by
  refine ⟨?_, chunk100_length ids, fun b hb => chunk100_le ids b hb, chunk100_flatten ids⟩
  rw [get_final_post_status_eq, runChunks_events]
  rfl

theorem get_final_post_status_schedule_witness :
    (get_final_post_status failOracle 0 ["a", "b", "c"]).events =
      eventsOf failOracle (chunk100 ["a", "b", "c"]) 0 ∧
    (["a", "b", "c"] : List String).length ≤ 100 :=
  ⟨(get_final_post_status_schedule failOracle 0 ["a", "b", "c"]).1,
   (get_final_post_status_schedule failOracle 0 ["a", "b", "c"]).2.2.1
     ["a", "b", "c"] (by decide)⟩

/-- C5: when the bulk call of the j-th batch raises, the exception is
caught and the batch's index range is logged; provided the identifiers are
pairwise distinct (a cohort-manifest invariant) and the bulk call only
returns posts it was asked about, the failing batch's identifiers are
absent from the returned status mapping, while every post returned by a
successful batch is present — the run continues past the failure. -/
theorem get_final_post_status_batch_failure (oracle : List String → BatchResult)
    (now : Int) (ids : List String) (hnd : ids.Nodup)
    (hcont : ∀ b posts, oracle b = BatchResult.ok posts → ∀ p ∈ posts, p.fullname ∈ b)
    (j : Nat) (hj : j < (chunk100 ids).length)
    (hfail : oracle ((chunk100 ids).get ⟨j, hj⟩) = BatchResult.err) :
    BEvent.errorLog (100 * j) (100 * j + 100) ∈
      (get_final_post_status oracle now ids).events ∧
    (∀ x ∈ (chunk100 ids).get ⟨j, hj⟩,
      lookupA (get_final_post_status oracle now ids).statusMap x = none) ∧
    (∀ b ∈ chunk100 ids, ∀ posts, oracle b = BatchResult.ok posts → ∀ p ∈ posts,
      (lookupA (get_final_post_status oracle now ids).statusMap p.fullname).isSome = true) := by
  have hev : (get_final_post_status oracle now ids).events =
      eventsOf oracle (chunk100 ids) 0 := by
    rw [get_final_post_status_eq, runChunks_events]
    rfl
  have hmap : (get_final_post_status oracle now ids).statusMap =
      statusOf oracle now (chunk100 ids) [] := by
    rw [get_final_post_status_eq, runChunks_map]
  refine ⟨?_, ?_, ?_⟩
  · rw [hev]
    have hm := eventsOf_err_mem oracle (chunk100 ids) 0 j hj hfail
    simpa using hm
  · intro x hx
    rw [hmap]
    have H : ∀ b ∈ chunk100 ids, ∀ posts, oracle b = BatchResult.ok posts →
        ∀ p ∈ posts, p.fullname ≠ x := by
      intro b hb posts hok p hp hfn
      have hxb : x ∈ b := hfn ▸ hcont b posts hok p hp
      have hbj : b = (chunk100 ids).get ⟨j, hj⟩ :=
        flatten_nodup_unique (chunk100 ids) b ((chunk100 ids).get ⟨j, hj⟩) x
          (by rw [chunk100_flatten]; exact hnd) hb (List.get_mem _ _ _) hxb hx
      rw [hbj, hfail] at hok
      exact BatchResult.noConfusion hok
    rw [statusOf_lookup_none oracle now x (chunk100 ids) [] H]
    rfl
  · intro b hb posts hok p hp
    rw [hmap]
    exact statusOf_ok_mem oracle now (chunk100 ids) [] b posts p hb hok hp

theorem get_final_post_status_batch_failure_witness :
    BEvent.errorLog 0 100 ∈ (get_final_post_status failOracle 0 ["a"]).events ∧
    lookupA (get_final_post_status failOracle 0 ["a"]).statusMap "a" = none := by
  have T := get_final_post_status_batch_failure failOracle 0 ["a"] (by decide)
    (fun b posts h => BatchResult.noConfusion h) 0 (by decide) rfl
  exact ⟨by simpa using T.1, T.2.1 "a" (by decide)⟩

end ContentModeration
